import Mathlib

/-!
Verification of the gqlgen schema-to-query generator (src/index.js).

The development shallowly embeds the program: the GraphQL type-reference
AST, the catalog builder `findOperationsAndTypes`, the selection
synthesizer inside `generateCodeForOperation`, the type-name resolver
`getTypeName`, and the `generate` command handler.  External
collaborators (the HTTP transport, the graphql library's introspection
machinery, the prettier formatter, yargs, and the filesystem) are kept
at the boundary: the handler is modelled as a pure function from its
inputs (including the would-be fetch result and an existence oracle for
files) to a list of observable effects, and the synthesizer returns the
pre-format source text that the program hands to the formatter.
-/

namespace Gqlgen

/-- A GraphQL type reference (graphql.TypeNode):
NamedType, ListType or NonNullType. -/
inductive TypeNode where
  | named (name : String)
  | list (inner : TypeNode)
  | nonNull (inner : TypeNode)
deriving DecidableEq

/-- An argument declaration on a field (graphql.InputValueDefinitionNode),
restricted to the parts the program reads: name and type. -/
structure InputValueDef where
  name : String
  type : TypeNode
deriving DecidableEq

/-- A field definition (graphql.FieldDefinitionNode), restricted to the
parts the program reads: name, arguments and type. -/
structure FieldDef where
  name : String
  arguments : List InputValueDef
  type : TypeNode
deriving DecidableEq

/-- An object type definition (graphql.ObjectTypeDefinitionNode).
`fields = none` models an AST node whose `fields` property is absent
(JavaScript `undefined`), which is how graphql-js represents a type
declared without a field block. -/
structure ObjectTypeDef where
  name : String
  fields : Option (List FieldDef)
deriving DecidableEq

/-- The operation kind string, "query" or "mutation". -/
inductive OpKind where
  | query
  | mutation
deriving DecidableEq

/-- The string value the program stores in `operation.kind`. -/
def OpKind.toString : OpKind → String
  | .query => "query"
  | .mutation => "mutation"

/-- An operation descriptor as built by `findOperationsAndTypes`:
`{kind, name, astValue}` where `astValue` is the root field definition. -/
structure Operation where
  kind : OpKind
  name : String
  astValue : FieldDef
deriving DecidableEq

/-- The type catalog: the JavaScript `Map<string, FieldDefinitionNode[]>`
as an association list in insertion order with unique keys. -/
abbrev Catalog := List (String × List FieldDef)

/-- JavaScript `Map.prototype.set`: replace the value in place when the
key is present, otherwise append the new entry. -/
def mapSet (m : Catalog) (k : String) (v : List FieldDef) : Catalog :=
  match m with
  | [] => [(k, v)]
  | (k₀, v₀) :: rest => if k₀ = k then (k, v) :: rest else (k₀, v₀) :: mapSet rest k v

/-- JavaScript `Map.prototype.get` (with `has` = `(mapGet? m k).isSome`). -/
def mapGet? (m : Catalog) (k : String) : Option (List FieldDef) :=
  match m with
  | [] => none
  | (k₀, v₀) :: rest => if k₀ = k then some v₀ else mapGet? rest k

/--
`getTypeName(node, forQueryDefinition)` from src/index.js: with
`forQueryDefinition = true` a NonNull wrapper renders as `inner + "!"`
and a List wrapper as `"[" + inner + "]"`; otherwise both wrappers are
skipped; a NamedType yields its name.
-/
def getTypeName (node : TypeNode) (forQueryDefinition : Bool) : String :=
  if forQueryDefinition then
    match node with
    | .nonNull t => getTypeName t forQueryDefinition ++ "!"
    | .list t => "[" ++ getTypeName t forQueryDefinition ++ "]"
    | .named n => n
  else
    match node with
    | .nonNull t => getTypeName t forQueryDefinition
    | .list t => getTypeName t forQueryDefinition
    | .named n => n

/-- One operation descriptor per field of a root type, in field order. -/
def mkOperations (kind : OpKind) (fields : List FieldDef) : List Operation :=
  fields.map fun field => { kind := kind, name := field.name, astValue := field }

/--
The visitor body of `findOperationsAndTypes`, processing the object type
definitions of the document in order while accumulating the operations
array and the types map.  A definition named "Mutation" or "Query"
pushes one descriptor per field and is not inserted into the map; on
such a definition with an absent field list the JavaScript
`node.fields.forEach` throws, modelled by `none`.  Any other definition
is inserted via `types.set(name, node.fields || [])`.
-/
def findOperationsAndTypesAux :
    List ObjectTypeDef → List Operation → Catalog → Option (List Operation × Catalog)
  | [], operations, types => some (operations, types)
  | node :: rest, operations, types =>
    if node.name = "Mutation" ∨ node.name = "Query" then
      match node.fields with
      | none => none
      | some fs =>
        let kind := if node.name = "Mutation" then OpKind.mutation else OpKind.query
        findOperationsAndTypesAux rest (operations ++ mkOperations kind fs) types
    else
      findOperationsAndTypesAux rest operations (mapSet types node.name (node.fields.getD []))

/-- `findOperationsAndTypes(schema)` from src/index.js. -/
def findOperationsAndTypes (schema : List ObjectTypeDef) :
    Option (List Operation × Catalog) :=
  findOperationsAndTypesAux schema [] []

/-- `upperFirst` from src/index.js:
`input.charAt(0).toUpperCase() + input.slice(1)` (ASCII case mapping). -/
def upperFirst (input : String) : String :=
  match input.data with
  | [] => ""
  | c :: cs => String.mk (c.toUpper :: cs)

/--
The recursive `selectFields` closure of `generateCodeForOperation`,
returning the lines it pushes onto `code`.  A field whose resolved bare
type name is not a key of `types` contributes its name alone; otherwise
the name is pushed and, only when `depth < maxFieldsSelectionDepth`, a
brace-delimited block with every field of the referenced type selected
at `depth + 1`.
-/
def selectFields (types : Catalog) (maxFieldsSelectionDepth : Nat)
    (field : FieldDef) (depth : Nat) : List String :=
  let fieldType := getTypeName field.type false
  let fieldName := field.name
  match mapGet? types fieldType with
  | none => [fieldName]
  | some fs =>
    if h : depth < maxFieldsSelectionDepth then
      fieldName :: "\x7b" ::
        ((fs.map fun item => selectFields types maxFieldsSelectionDepth item (depth + 1)).flatten
          ++ ["\x7d"])
    else
      [fieldName]
termination_by maxFieldsSelectionDepth - depth
decreasing_by simp_wf; omega

/-- The variable-declaration entries `$argName: Type` that
`generateCodeForOperation` joins with "," inside the parenthesized
variable list. -/
def varDeclarations (args : List InputValueDef) : List String :=
  args.map fun arg => "$" ++ arg.name ++ ": " ++ getTypeName arg.type true

/-- The argument-binding entries `argName: $argName` that
`generateCodeForOperation` joins with "," inside the parenthesized
argument-usage list. -/
def argumentBindings (args : List InputValueDef) : List String :=
  args.map fun arg => arg.name ++ ": $" ++ arg.name

/--
`generateCodeForOperation(operation, types, maxFieldsSelectionDepth)`
from src/index.js up to the final join with "\n": the list of lines
pushed onto `code`, before the external prettier formatter is applied.
The commented-out header push of the source is omitted as in the source.
-/
def generateCodeForOperation (operation : Operation) (types : Catalog)
    (maxFieldsSelectionDepth : Nat) : List String :=
  let code₀ : List String :=
    ["import gql from \"graphql-tag\";", "", "export default gql`",
     operation.kind.toString ++ " " ++ upperFirst operation.name]
  let code₁ :=
    if operation.astValue.arguments.length > 0 then
      code₀ ++ ["(", String.intercalate "," (varDeclarations operation.astValue.arguments), ")"]
    else
      code₀
  let code₂ := code₁ ++ ["\x7b", operation.name]
  let code₃ :=
    if operation.astValue.arguments.length > 0 then
      code₂ ++ ["(", String.intercalate "," (argumentBindings operation.astValue.arguments), ")"]
    else
      code₂
  let returnType := getTypeName operation.astValue.type false
  let code₄ :=
    match mapGet? types returnType with
    | some fs =>
      code₃ ++ ["\x7b"] ++
        (fs.map fun field => selectFields types maxFieldsSelectionDepth field 0).flatten ++ ["\x7d"]
    | none => code₃
  code₄ ++ ["\x7d", "`", ""]

/-- The source string assembled by joining `code` with "\n", i.e. the text the
program passes to the external formatter. -/
def generateCodeText (operation : Operation) (types : Catalog)
    (maxFieldsSelectionDepth : Nat) : String :=
  String.intercalate "\n" (generateCodeForOperation operation types maxFieldsSelectionDepth)

/-- A generated artifact of the `generate` handler: `{name, fileName,
code}` where `code` carries the pre-format source text (the formatter is
an external collaborator). -/
structure GeneratedNode where
  name : String
  fileName : String
  code : String
deriving DecidableEq

/-- The `nodes` computation of the `generate` handler: filter the
operations by requested kind and requested names, then derive the
artifact name, file name and code (`maxFieldsSelectionDepth` defaults
to 2 at this call site). -/
def generateNodes (kindArg : OpKind) (operationNames : List String)
    (operations : List Operation) (types : Catalog) : List GeneratedNode :=
  (operations.filter fun operation =>
      operation.kind == kindArg && operationNames.contains operation.name).map
    fun operation =>
      let name := upperFirst operation.name ++ upperFirst operation.kind.toString
      { name := name, fileName := name ++ ".ts",
        code := generateCodeText operation types 2 }

/-- An observable effect of one `generate` run: invoking the schema
fetch collaborator with the given url argument, printing a line to
standard output, or writing a file. -/
inductive Effect where
  | fetch (url : String)
  | print (line : String)
  | write (fileName : String) (contents : String)
deriving DecidableEq

/--
The `generate` command handler from src/index.js as a pure function:
`schema` is the document the fetch collaborator would return and
`existsSync` the file-existence oracle.  An empty operations list
returns before the fetch; otherwise the schema is fetched and the
catalog built (`none` propagates its failure), and the artifacts are
either all written (only when no target file exists) or printed.
-/
def generateHandler (url : String) (kindArg : OpKind) (operationNames : List String)
    (write : Bool) (schema : List ObjectTypeDef) (existsSync : String → Bool) :
    Option (List Effect) :=
  if operationNames.length = 0 then
    some []
  else
    match findOperationsAndTypes schema with
    | none => none
    | some (operations, types) =>
      let nodes := generateNodes kindArg operationNames operations types
      let writeEffects :=
        if nodes.all fun node => !existsSync node.fileName then
          (nodes.map fun node =>
            [Effect.write node.fileName node.code,
             Effect.print ("Written to " ++ node.fileName)]).flatten
        else
          []
      let printEffects :=
        (nodes.map fun node =>
          [Effect.print ("// " ++ node.fileName), Effect.print node.code]).flatten
      some (Effect.fetch url :: (if write then writeEffects else printEffects))

/-- The HTTP call issued by `fetchSchemaWithIntrospection`, restricted
to the parts the claims mention: target url, method, and the `query`
field of the JSON body.  `introspectionQuery` abstracts the fixed string
returned by the external `getIntrospectionQuery()`. -/
structure FetchCall where
  url : String
  method : String
  bodyQuery : String
deriving DecidableEq

/-- `fetchSchemaWithIntrospection(url)` from src/index.js builds exactly
this call: the `url` parameter is received but the `fetch` targets the
hardcoded address `http://localhost:25202/`. -/
def fetchSchemaCall (introspectionQuery : String) (url : String) : FetchCall :=
  { url := "http://localhost:25202/", method := "POST", bodyQuery := introspectionQuery }

/-- Modelled on the spec wording for the catalog builder: each definition
named "Query" or "Mutation" contributes one descriptor per field, in
document order; every other definition contributes nothing.  Used to
state the refinement of `findOperationsAndTypes`. -/
def specOperations (doc : List ObjectTypeDef) : List Operation :=
  (doc.map fun node =>
    if node.name = "Mutation" ∨ node.name = "Query" then
      mkOperations (if node.name = "Mutation" then OpKind.mutation else OpKind.query)
        (node.fields.getD [])
    else []).flatten

/-- Modelled on the spec wording for the catalog builder: starting from
`types`, insert every non-root definition keyed by its name with its
field list as value (empty when it declares none), in document order
with last-write-wins.  Used to state the refinement of
`findOperationsAndTypes`. -/
def specCatalogFrom (types : Catalog) (doc : List ObjectTypeDef) : Catalog :=
  doc.foldl
    (fun acc node =>
      if node.name = "Mutation" ∨ node.name = "Query" then acc
      else mapSet acc node.name (node.fields.getD []))
    types

/-- The catalog described by the spec, built from the empty map. -/
def specCatalog (doc : List ObjectTypeDef) : Catalog := specCatalogFrom [] doc

/-- The bare-name resolution as the spec words it: strip all List and
NonNull wrappers down to the named type. -/
def bareTypeName : TypeNode → String
  | .named n => n
  | .list t => bareTypeName t
  | .nonNull t => bareTypeName t

/-- Wrapper-preserving rendering: every List wrapper as brackets and
every NonNull wrapper, the innermost included, as a trailing "!". -/
def renderTypeFull : TypeNode → String
  | .named n => n
  | .list t => "[" ++ renderTypeFull t ++ "]"
  | .nonNull t => renderTypeFull t ++ "!"

/-- The variable-declaration rendering as the claim words it: List and
NonNull wrapping syntax preserved, except that a NonNull around the
innermost (named) layer is stripped. -/
def claimVarTypeRendering : TypeNode → String
  | .nonNull (.named n) => n
  | .nonNull t => claimVarTypeRendering t ++ "!"
  | .list t => "[" ++ claimVarTypeRendering t ++ "]"
  | .named n => n

/-- The brace-nesting level after scanning the given code lines from
level `c`: a "\x7b" line opens a selection block, a "\x7d" line closes
one, any other line leaves the level unchanged. -/
def endLevel : List String → Nat → Nat
  | [], c => c
  | t :: ts, c =>
    endLevel ts (if t = "\x7b" then c + 1 else if t = "\x7d" then c - 1 else c)

/-- The maximum brace-nesting level reached while scanning the given
code lines from level `c`, the start level included. -/
def maxLevel : List String → Nat → Nat
  | [], c => c
  | t :: ts, c =>
    max c (maxLevel ts (if t = "\x7b" then c + 1 else if t = "\x7d" then c - 1 else c))

/-- The `type Query \x7b now: String \x7d` example field of the spec. -/
def nowField : FieldDef :=
  { name := "now", arguments := [], type := TypeNode.named "String" }

/-- The spec's example schema: a single Query type declaring `now`. -/
def schemaNow : List ObjectTypeDef :=
  [{ name := "Query", fields := some [nowField] }]

/-- The operation descriptor the catalog builder derives for `now`. -/
def nowOperation : Operation :=
  { kind := OpKind.query, name := "now", astValue := nowField }

/-- The artifact the generate handler derives for `now`. -/
def nowNode : GeneratedNode :=
  { name := "NowQuery", fileName := "NowQuery.ts",
    code := generateCodeText nowOperation [] 2 }

/-- A root field returning the object type `Foo`. -/
def fooOperation : Operation :=
  { kind := OpKind.query, name := "foo",
    astValue := { name := "foo", arguments := [], type := TypeNode.named "Foo" } }

/-- A catalog whose `Foo` entry carries an empty field list, as produced
for a type declared without a field block. -/
def fooTypes : Catalog := [("Foo", [])]

/-- A self-referential catalog type: `T` declares one field `t` of type
`T`, exercising the depth guard. -/
def tField : FieldDef :=
  { name := "t", arguments := [], type := TypeNode.named "T" }

/-- The one-entry catalog containing the self-referential type `T`. -/
def tCatalog : Catalog := [("T", [tField])]

/-- A scalar-returning field named `a`, used to build duplicate root
definitions. -/
def aField : FieldDef :=
  { name := "a", arguments := [], type := TypeNode.named "Int" }

/-! ### Theorems -/

/-- C1 (code bug evidence): `fetchSchemaWithIntrospection` always sends
its single POST request, carrying the fixed introspection query as the
body's query field, to the hardcoded address `http://localhost:25202/`;
in particular the caller-supplied endpoint URL is ignored, contradicting
the function's own documentation ("Fetches and build the schema from the
specified URL") and the CLI's `url` positional argument. -/
theorem fetchSchemaCall_ignores_url :
    (∀ introspectionQuery url : String,
      fetchSchemaCall introspectionQuery url =
        { url := "http://localhost:25202/", method := "POST",
          bodyQuery := introspectionQuery }) ∧
    (fetchSchemaCall "IntrospectionQuery" "https://api.example.com/graphql").url ≠
      "https://api.example.com/graphql" := by
  refine ⟨fun introspectionQuery url => rfl, ?_⟩
  decide

/-- C5: for an operation with N declared arguments the rendered
variable-declaration entries and argument-binding entries number exactly
N each, in declaration order, and at every index the binding
`argName: $argName` is matched by the declaration `$argName: Type` for
the same argument. -/
theorem operation_arguments_lists (args : List InputValueDef) :
    (varDeclarations args).length = args.length ∧
    (argumentBindings args).length = args.length ∧
    ∀ i : Nat,
      (argumentBindings args)[i]? =
        Option.map (fun arg => arg.name ++ ": $" ++ arg.name) args[i]? ∧
      (varDeclarations args)[i]? =
        Option.map (fun arg => "$" ++ arg.name ++ ": " ++ getTypeName arg.type true)
          args[i]? := by
  refine ⟨by simp [varDeclarations], by simp [argumentBindings], fun i => ⟨?_, ?_⟩⟩
  · simp [argumentBindings, List.getElem?_map]
  · simp [varDeclarations, List.getElem?_map]

/-- C6 (counterexample): on the type reference `ID!` the program's
variable-declaration rendering keeps the NonNull wrapper around the
innermost named layer, while the claim's rendering strips it; the two
disagree at this input. -/
theorem getTypeName_keeps_innermost_nonNull :
    getTypeName (TypeNode.nonNull (TypeNode.named "ID")) true = "ID!" ∧
    claimVarTypeRendering (TypeNode.nonNull (TypeNode.named "ID")) = "ID" ∧
    getTypeName (TypeNode.nonNull (TypeNode.named "ID")) true ≠
      claimVarTypeRendering (TypeNode.nonNull (TypeNode.named "ID")) := by
  refine ⟨rfl, rfl, ?_⟩
  decide

/-- C6 (amended): resolving a type reference to a bare name strips all
List/NonNull wrappers, and resolving it for a variable declaration
preserves the List/NonNull wrapping syntax exactly as declared,
stripping nothing — the innermost NonNull included. -/
theorem getTypeName_resolution (t : TypeNode) :
    getTypeName t false = bareTypeName t ∧ getTypeName t true = renderTypeFull t := by
  induction t with
  | named n => exact ⟨rfl, rfl⟩
  | list t ih =>
    exact ⟨by simp [getTypeName, bareTypeName, ih.1],
           by simp [getTypeName, renderTypeFull, ih.2]⟩
  | nonNull t ih =>
    exact ⟨by simp [getTypeName, bareTypeName, ih.1],
           by simp [getTypeName, renderTypeFull, ih.2]⟩

/-- C8: requesting `generate` with an empty operations list returns
before the schema fetch, with no effect at all: nothing fetched, nothing
printed, nothing written. -/
theorem generate_empty_operations_noop
    (url : String) (kindArg : OpKind) (operationNames : List String) (write : Bool)
    (schema : List ObjectTypeDef) (existsSync : String → Bool)
    (h : operationNames = []) :
    generateHandler url kindArg operationNames write schema existsSync = some [] := by
  subst h
  rfl

/-- Witness for C8 at a concrete invocation. -/
theorem generate_empty_operations_noop_witness :
    generateHandler "https://api.example.com/graphql" OpKind.query [] true schemaNow
      (fun _ => false) = some [] :=
  generate_empty_operations_noop "https://api.example.com/graphql" OpKind.query [] true
    schemaNow (fun _ => false) rfl

/-- A successful `Map.get` exhibits a member of the association list. -/
theorem mapGet?_mem {m : Catalog} {k : String} {v : List FieldDef}
    (h : mapGet? m k = some v) : (k, v) ∈ m := by
  induction m with
  | nil => simp [mapGet?] at h
  | cons q rest ih =>
    obtain ⟨k₀, v₀⟩ := q
    rw [mapGet?] at h
    by_cases e : k₀ = k
    · rw [if_pos e] at h
      subst e
      cases h
      exact List.mem_cons_self _ _
    · rw [if_neg e] at h
      exact List.mem_cons_of_mem _ (ih h)

/-- Every entry of `mapSet m k v` either carries the inserted key or was
already an entry of `m`. -/
theorem mem_mapSet {m : Catalog} {k : String} {v : List FieldDef}
    {p : String × List FieldDef} (h : p ∈ mapSet m k v) : p.1 = k ∨ p ∈ m := by
  induction m with
  | nil =>
    simp only [mapSet, List.mem_singleton] at h
    subst h
    exact Or.inl rfl
  | cons q rest ih =>
    obtain ⟨k₀, v₀⟩ := q
    rw [mapSet] at h
    by_cases e : k₀ = k
    · rw [if_pos e] at h
      rcases List.mem_cons.mp h with h | h
      · subst h
        exact Or.inl rfl
      · exact Or.inr (List.mem_cons_of_mem _ h)
    · rw [if_neg e] at h
      rcases List.mem_cons.mp h with h | h
      · subst h
        exact Or.inr (List.mem_cons_self _ _)
      · rcases ih h with h' | h'
        · exact Or.inl h'
        · exact Or.inr (List.mem_cons_of_mem _ h')

/-- `specOperations` distributes over document concatenation. -/
theorem specOperations_append (a b : List ObjectTypeDef) :
    specOperations (a ++ b) = specOperations a ++ specOperations b := by
  simp [specOperations]

/-- `specOperations` on a leading "Query" definition with a field list. -/
theorem specOperations_query_cons (fs : List FieldDef) (rest : List ObjectTypeDef) :
    specOperations (⟨"Query", some fs⟩ :: rest) =
      mkOperations OpKind.query fs ++ specOperations rest := by
  simp [specOperations]

/-- Whenever the visitor loop of `findOperationsAndTypes` succeeds, it
returns exactly the accumulated operations extended per the spec and the
catalog extended per the spec. -/
theorem findOperationsAndTypesAux_some :
    ∀ (doc : List ObjectTypeDef) (ops : List Operation) (cat : Catalog)
      (r : List Operation × Catalog),
      findOperationsAndTypesAux doc ops cat = some r →
      r.1 = ops ++ specOperations doc ∧ r.2 = specCatalogFrom cat doc := by
  intro doc
  induction doc with
  | nil =>
    intro ops cat r h
    cases h
    simp [specOperations, specCatalogFrom]
  | cons node rest ih =>
    intro ops cat r h
    rw [findOperationsAndTypesAux] at h
    by_cases hroot : node.name = "Mutation" ∨ node.name = "Query"
    · rw [if_pos hroot] at h
      cases hf : node.fields with
      | none => rw [hf] at h; cases h
      | some fs =>
        rw [hf] at h
        simp only at h
        have hr := ih _ _ _ h
        refine ⟨?_, ?_⟩
        · rw [hr.1]
          simp [specOperations, hroot, hf, List.append_assoc]
        · rw [hr.2]
          simp [specCatalogFrom, hroot]
    · rw [if_neg hroot] at h
      have hr := ih _ _ _ h
      refine ⟨?_, ?_⟩
      · rw [hr.1]
        simp [specOperations, hroot]
      · rw [hr.2]
        simp [specCatalogFrom, hroot]

/-- When every root definition carries a field list, the visitor loop
succeeds and returns the spec's operations and catalog. -/
theorem findOperationsAndTypesAux_total :
    ∀ (doc : List ObjectTypeDef) (ops : List Operation) (cat : Catalog),
      (∀ node ∈ doc, (node.name = "Mutation" ∨ node.name = "Query") → node.fields ≠ none) →
      findOperationsAndTypesAux doc ops cat =
        some (ops ++ specOperations doc, specCatalogFrom cat doc) := by
  intro doc
  induction doc with
  | nil =>
    intro ops cat _
    simp [findOperationsAndTypesAux, specOperations, specCatalogFrom]
  | cons node rest ih =>
    intro ops cat hroots
    rw [findOperationsAndTypesAux]
    by_cases hroot : node.name = "Mutation" ∨ node.name = "Query"
    · rw [if_pos hroot]
      cases hf : node.fields with
      | none =>
        exact absurd hf (hroots node (List.mem_cons_self _ _) hroot)
      | some fs =>
        simp only
        rw [ih _ _ (fun n hn => hroots n (List.mem_cons_of_mem _ hn))]
        simp [specOperations, specCatalogFrom, hroot, hf, List.append_assoc]
    · rw [if_neg hroot]
      rw [ih _ _ (fun n hn => hroots n (List.mem_cons_of_mem _ hn))]
      simp [specOperations, specCatalogFrom, hroot]

/-- Every catalog entry built by the spec's fold either comes from the
starting map or is keyed by the name of a non-root definition of the
document. -/
theorem mem_specCatalogFrom :
    ∀ (doc : List ObjectTypeDef) (cat : Catalog) (p : String × List FieldDef),
      p ∈ specCatalogFrom cat doc →
      p ∈ cat ∨ ∃ node ∈ doc, node.name = p.1 ∧
        ¬(node.name = "Mutation" ∨ node.name = "Query") := by
  intro doc
  induction doc with
  | nil => intro cat p h; exact Or.inl h
  | cons node rest ih =>
    intro cat p h
    rw [specCatalogFrom, List.foldl_cons] at h
    by_cases hroot : node.name = "Mutation" ∨ node.name = "Query"
    · rw [if_pos hroot] at h
      rcases ih cat p h with h' | ⟨n, hn, he, hr⟩
      · exact Or.inl h'
      · exact Or.inr ⟨n, List.mem_cons_of_mem _ hn, he, hr⟩
    · rw [if_neg hroot] at h
      rcases ih _ p h with h' | ⟨n, hn, he, hr⟩
      · rcases mem_mapSet h' with e | hm
        · exact Or.inr ⟨node, List.mem_cons_self _ _, e.symm, hroot⟩
        · exact Or.inl hm
      · exact Or.inr ⟨n, List.mem_cons_of_mem _ hn, he, hr⟩

/-- C4: on a document whose root definitions carry field lists,
`findOperationsAndTypes` classifies every object type definition as the
spec describes — each field of a "Query"/"Mutation" definition becomes
one operation descriptor of the corresponding kind, every other
definition is inserted into the catalog keyed by its name with its field
list (empty when it declares none) as value — and no catalog entry is
keyed "Query" or "Mutation". -/
theorem findOperationsAndTypes_classification
    (doc : List ObjectTypeDef)
    (hroots : ∀ node ∈ doc, (node.name = "Mutation" ∨ node.name = "Query") →
      node.fields ≠ none) :
    findOperationsAndTypes doc = some (specOperations doc, specCatalog doc) ∧
    ∀ p ∈ specCatalog doc,
      p.1 ≠ "Query" ∧ p.1 ≠ "Mutation" ∧ ∃ node ∈ doc, node.name = p.1 := by
  constructor
  · have h := findOperationsAndTypesAux_total doc [] [] hroots
    simpa [findOperationsAndTypes, specCatalog] using h
  · intro p hp
    rcases mem_specCatalogFrom doc [] p hp with h | ⟨node, hn, he, hr⟩
    · cases h
    · push_neg at hr
      exact ⟨he ▸ hr.2, he ▸ hr.1, node, hn, he⟩

/-- Witness for C4 on a concrete document with a Query root and one
ordinary type. -/
theorem findOperationsAndTypes_classification_witness :
    findOperationsAndTypes [⟨"Query", some [nowField]⟩, ⟨"User", some [aField]⟩] =
      some (specOperations [⟨"Query", some [nowField]⟩, ⟨"User", some [aField]⟩],
            specCatalog [⟨"Query", some [nowField]⟩, ⟨"User", some [aField]⟩]) :=
  (findOperationsAndTypes_classification
    [⟨"Query", some [nowField]⟩, ⟨"User", some [aField]⟩] (by decide)).1

/-- C10: operation descriptors accumulate across duplicate root
definitions — for a document containing two definitions named "Query",
the operations list contains the fields of both, appended in traversal
order (no last-write-wins overwrite applies to operations), so a single
name declared by both definitions matches at least two descriptors. -/
theorem duplicate_root_definitions_accumulate
    (d₁ d₂ d₃ : List ObjectTypeDef) (fs₁ fs₂ : List FieldDef)
    (ops : List Operation) (cat : Catalog)
    (h : findOperationsAndTypes
        (d₁ ++ ⟨"Query", some fs₁⟩ :: (d₂ ++ ⟨"Query", some fs₂⟩ :: d₃)) =
      some (ops, cat)) :
    ops = specOperations d₁ ++ mkOperations OpKind.query fs₁ ++
          specOperations d₂ ++ mkOperations OpKind.query fs₂ ++ specOperations d₃ ∧
    ∀ nm : String, (∃ f ∈ fs₁, f.name = nm) → (∃ f ∈ fs₂, f.name = nm) →
      2 ≤ (ops.filter fun op => op.name == nm).length := by
  have hops :
      ops = specOperations d₁ ++ mkOperations OpKind.query fs₁ ++
            specOperations d₂ ++ mkOperations OpKind.query fs₂ ++ specOperations d₃ := by
    have hr := findOperationsAndTypesAux_some _ [] [] _ h
    have h1 := hr.1
    rw [specOperations_append, specOperations_query_cons, specOperations_append,
      specOperations_query_cons] at h1
    simpa [List.append_assoc] using h1
  refine ⟨hops, ?_⟩
  rintro nm ⟨f₁, hf₁, hnm₁⟩ ⟨f₂, hf₂, hnm₂⟩
  have hmem₁ : (⟨OpKind.query, f₁.name, f₁⟩ : Operation) ∈ mkOperations OpKind.query fs₁ :=
    List.mem_map_of_mem _ hf₁
  have hmem₂ : (⟨OpKind.query, f₂.name, f₂⟩ : Operation) ∈ mkOperations OpKind.query fs₂ :=
    List.mem_map_of_mem _ hf₂
  have hc₁ : 0 < (mkOperations OpKind.query fs₁).countP (fun op => op.name == nm) :=
    List.countP_pos_iff.mpr ⟨_, hmem₁, by simp [hnm₁]⟩
  have hc₂ : 0 < (mkOperations OpKind.query fs₂).countP (fun op => op.name == nm) :=
    List.countP_pos_iff.mpr ⟨_, hmem₂, by simp [hnm₂]⟩
  rw [hops, ← List.countP_eq_length_filter]
  simp only [List.countP_append]
  omega

/-- Witness for C10: a document made of two Query definitions, both
declaring the field `a`, yields two descriptors named `a`. -/
theorem duplicate_root_definitions_accumulate_witness :
    2 ≤ ((specOperations ([] : List ObjectTypeDef) ++ mkOperations OpKind.query [aField] ++
          specOperations ([] : List ObjectTypeDef) ++ mkOperations OpKind.query [aField] ++
          specOperations ([] : List ObjectTypeDef)).filter
            fun op => op.name == "a").length :=
  (duplicate_root_definitions_accumulate [] [] [] [aField] [aField] _ _ rfl).2 "a"
    ⟨aField, by decide, rfl⟩ ⟨aField, by decide, rfl⟩

/-- C3: in write mode, when every derived target filename is absent the
handler writes every artifact (each write followed by its confirmation
line), and when any target file already exists it writes nothing at all
while still completing without error. -/
theorem generate_write_all_or_nothing
    (url : String) (kindArg : OpKind) (operationNames : List String)
    (schema : List ObjectTypeDef) (existsSync : String → Bool)
    (operations : List Operation) (types : Catalog)
    (hne : operationNames.length ≠ 0)
    (hfoat : findOperationsAndTypes schema = some (operations, types)) :
    ((∀ node ∈ generateNodes kindArg operationNames operations types,
        existsSync node.fileName = false) →
      generateHandler url kindArg operationNames true schema existsSync =
        some (Effect.fetch url ::
          ((generateNodes kindArg operationNames operations types).map fun node =>
            [Effect.write node.fileName node.code,
             Effect.print ("Written to " ++ node.fileName)]).flatten)) ∧
    ((∃ node ∈ generateNodes kindArg operationNames operations types,
        existsSync node.fileName = true) →
      generateHandler url kindArg operationNames true schema existsSync =
        some [Effect.fetch url]) := by
  constructor
  · intro hall
    have hsafe : ((generateNodes kindArg operationNames operations types).all
        fun node => !existsSync node.fileName) = true := by
      rw [List.all_eq_true]
      intro n hn
      rw [hall n hn]
      rfl
    rw [generateHandler, if_neg hne, hfoat]
    simp only [hsafe, if_true]
  · rintro ⟨n, hn, hex⟩
    have hblocked : ((generateNodes kindArg operationNames operations types).all
        fun node => !existsSync node.fileName) = false := by
      rw [List.all_eq_false]
      exact ⟨n, hn, by rw [hex]; decide⟩
    rw [generateHandler, if_neg hne, hfoat]
    simp [hblocked]

/-- Witness for C3: with no file present both artifacts for `now` are
written; with `NowQuery.ts` already on disk nothing is written and the
run still succeeds. -/
theorem generate_write_all_or_nothing_witness :
    generateHandler "u" OpKind.query ["now"] true schemaNow (fun _ => false) =
      some (Effect.fetch "u" ::
        ((generateNodes OpKind.query ["now"] [nowOperation] []).map fun node =>
          [Effect.write node.fileName node.code,
           Effect.print ("Written to " ++ node.fileName)]).flatten) ∧
    generateHandler "u" OpKind.query ["now"] true schemaNow (fun s => s == "NowQuery.ts") =
      some [Effect.fetch "u"] :=
  ⟨(generate_write_all_or_nothing "u" OpKind.query ["now"] schemaNow (fun _ => false)
      [nowOperation] [] (by decide) rfl).1 (fun n _ => rfl),
   (generate_write_all_or_nothing "u" OpKind.query ["now"] schemaNow
      (fun s => s == "NowQuery.ts") [nowOperation] [] (by decide) rfl).2
      ⟨nowNode, by decide, by decide⟩⟩

/-- C7: for a query operation with no arguments whose bare return type
is not a catalog key, the synthesized lines are exactly the import and
template boilerplate around a header with no variable list and a root
selection block holding only the field name, with no nested block; on
the spec's `type Query \x7b now: String \x7d` example the handler prints
the `// NowQuery.ts` header comment followed by that document. -/
theorem scalar_query_shape
    (operation : Operation) (types : Catalog)
    (hkind : operation.kind = OpKind.query)
    (hargs : operation.astValue.arguments = [])
    (hscalar : mapGet? types (getTypeName operation.astValue.type false) = none) :
    generateCodeForOperation operation types 2 =
      ["import gql from \"graphql-tag\";", "", "export default gql`",
       "query " ++ upperFirst operation.name, "\x7b", operation.name, "\x7d", "`", ""] ∧
    ∀ (url : String) (existsSync : String → Bool),
      generateHandler url OpKind.query ["now"] false schemaNow existsSync =
        some [Effect.fetch url, Effect.print "// NowQuery.ts",
          Effect.print
            "import gql from \"graphql-tag\";\n\nexport default gql`\nquery Now\n\x7b\nnow\n\x7d\n`\n"] := by
  constructor
  · rw [generateCodeForOperation, hscalar]
    simp [hargs, hkind, OpKind.toString]
  · intro url existsSync
    rfl

/-- Witness for C7 at the `now` example. -/
theorem scalar_query_shape_witness :
    generateCodeForOperation nowOperation [] 2 =
      ["import gql from \"graphql-tag\";", "", "export default gql`",
       "query " ++ upperFirst nowOperation.name, "\x7b", nowOperation.name, "\x7d", "`",
       ""] ∧
    generateHandler "http://localhost:25202/" OpKind.query ["now"] false schemaNow
        (fun _ => false) =
      some [Effect.fetch "http://localhost:25202/", Effect.print "// NowQuery.ts",
        Effect.print
          "import gql from \"graphql-tag\";\n\nexport default gql`\nquery Now\n\x7b\nnow\n\x7d\n`\n"] :=
  ⟨(scalar_query_shape nowOperation [] rfl rfl rfl).1,
   (scalar_query_shape nowOperation [] rfl rfl rfl).2 "http://localhost:25202/"
     (fun _ => false)⟩

/-- C9: when the operation's bare return type is a catalog key with an
empty field list, the root sub-selection block is still opened, so the
code lines contain an opening brace line immediately followed by a
closing brace line — an empty selection block in the pre-format text the
formatter receives; on a concrete `Foo` catalog type with zero fields
the assembled source text is shown in full, empty block included. -/
theorem empty_catalog_type_selection
    (operation : Operation) (types : Catalog)
    (hret : mapGet? types (getTypeName operation.astValue.type false) = some []) :
    (∃ pre post, generateCodeForOperation operation types 2 =
      pre ++ "\x7b" :: "\x7d" :: post) ∧
    generateCodeText fooOperation fooTypes 2 =
      "import gql from \"graphql-tag\";\n\nexport default gql`\nquery Foo\n\x7b\nfoo\n\x7b\n\x7d\n\x7d\n`\n" := by
  refine ⟨?_, rfl⟩
  by_cases ha : operation.astValue.arguments.length > 0
  · refine ⟨["import gql from \"graphql-tag\";", "", "export default gql`",
      operation.kind.toString ++ " " ++ upperFirst operation.name,
      "(", String.intercalate "," (varDeclarations operation.astValue.arguments), ")",
      "\x7b", operation.name,
      "(", String.intercalate "," (argumentBindings operation.astValue.arguments), ")"],
      ["\x7d", "`", ""], ?_⟩
    rw [generateCodeForOperation, hret]
    simp [ha]
  · refine ⟨["import gql from \"graphql-tag\";", "", "export default gql`",
      operation.kind.toString ++ " " ++ upperFirst operation.name,
      "\x7b", operation.name],
      ["\x7d", "`", ""], ?_⟩
    rw [generateCodeForOperation, hret]
    simp [ha]

/-- Witness for C9 on the `Foo` example. -/
theorem empty_catalog_type_selection_witness :
    generateCodeText fooOperation fooTypes 2 =
      "import gql from \"graphql-tag\";\n\nexport default gql`\nquery Foo\n\x7b\nfoo\n\x7b\n\x7d\n\x7d\n`\n" :=
  (empty_catalog_type_selection fooOperation fooTypes rfl).2

/-- The start level never exceeds the maximum level. -/
theorem le_maxLevel (ts : List String) (c : Nat) : c ≤ maxLevel ts c := by
  cases ts with
  | nil => exact Nat.le_refl c
  | cons t ts => exact le_max_left _ _

/-- Scanning a concatenation: the final level threads through. -/
theorem endLevel_append (a b : List String) (c : Nat) :
    endLevel (a ++ b) c = endLevel b (endLevel a c) := by
  induction a generalizing c with
  | nil => rfl
  | cons t ts ih => simp [endLevel, ih]

/-- Scanning a concatenation: the maximum level is the larger of the two
parts' maxima, the second scanned from the first's final level. -/
theorem maxLevel_append (a b : List String) (c : Nat) :
    maxLevel (a ++ b) c = max (maxLevel a c) (maxLevel b (endLevel a c)) := by
  induction a generalizing c with
  | nil =>
    simp only [List.nil_append, maxLevel, endLevel]
    exact (Nat.max_eq_right (le_maxLevel b c)).symm
  | cons t ts ih =>
    simp [maxLevel, endLevel, ih, Nat.max_assoc]

/-- Lifting balancedness and a nesting bound from one field's lines to
the flattened lines of a whole field list. -/
theorem flatten_levels (sf : FieldDef → List String) (k : Nat) (ok : FieldDef → Prop)
    (hsf : ∀ f, ok f → ∀ c, endLevel (sf f) c = c ∧ maxLevel (sf f) c ≤ c + k) :
    ∀ gs : List FieldDef, (∀ f ∈ gs, ok f) → ∀ c,
      endLevel ((gs.map sf).flatten) c = c ∧
      maxLevel ((gs.map sf).flatten) c ≤ c + k := by
  intro gs
  induction gs with
  | nil =>
    intro _ c
    exact ⟨rfl, Nat.le_add_right c k⟩
  | cons g gs ih =>
    intro hok c
    have h₁ := hsf g (hok g (List.mem_cons_self _ _)) c
    have hok' : ∀ f ∈ gs, ok f := fun f hf => hok f (List.mem_cons_of_mem _ hf)
    rw [List.map_cons, List.flatten_cons, endLevel_append, maxLevel_append, h₁.1]
    exact ⟨(ih hok' c).1, max_le h₁.2 (ih hok' c).2⟩

/-- Balancedness and the depth bound for `selectFields`: provided no
field name is itself a brace line, the lines emitted for one field at
`depth` are brace-balanced and never nest deeper than
`maxFieldsSelectionDepth - depth` above the start level. -/
theorem selectFields_levels (types : Catalog) (maxD : Nat)
    (hv : ∀ p ∈ types, ∀ f ∈ p.2, f.name ≠ "\x7b" ∧ f.name ≠ "\x7d") :
    ∀ (n depth : Nat) (field : FieldDef), maxD - depth ≤ n →
      field.name ≠ "\x7b" → field.name ≠ "\x7d" → ∀ c : Nat,
      endLevel (selectFields types maxD field depth) c = c ∧
      maxLevel (selectFields types maxD field depth) c ≤ c + (maxD - depth) := by
  intro n
  induction n with
  | zero =>
    intro depth field hle hn₁ hn₂ c
    have hnd : ¬ depth < maxD := by omega
    rw [selectFields]
    cases hc : mapGet? types (getTypeName field.type false) with
    | none => simp [endLevel, maxLevel, hn₁, hn₂]
    | some fs => simp [hnd, endLevel, maxLevel, hn₁, hn₂]
  | succ n ih =>
    intro depth field hle hn₁ hn₂ c
    rw [selectFields]
    cases hc : mapGet? types (getTypeName field.type false) with
    | none => simp [endLevel, maxLevel, hn₁, hn₂]
    | some fs =>
      by_cases hd : depth < maxD
      · simp only [hd, dite_true]
        have hfs : ∀ f ∈ fs, f.name ≠ "\x7b" ∧ f.name ≠ "\x7d" :=
          fun f hf => hv _ (mapGet?_mem hc) f hf
        have hflat :=
          flatten_levels (fun item => selectFields types maxD item (depth + 1))
            (maxD - (depth + 1)) (fun f => f.name ≠ "\x7b" ∧ f.name ≠ "\x7d")
            (fun f hf c' => ih (depth + 1) f (by omega) hf.1 hf.2 c') fs hfs
        constructor
        · simp only [endLevel, hn₁, hn₂, if_false, if_true, ite_false, ite_true]
          rw [endLevel_append, (hflat (c + 1)).1]
          simp [endLevel]
        · simp only [maxLevel, hn₁, hn₂, if_false, if_true, ite_false, ite_true]
          rw [maxLevel_append, (hflat (c + 1)).1]
          have hm := (hflat (c + 1)).2
          have hclose : maxLevel ["\x7d"] (c + 1) = c + 1 := by
            simp [maxLevel]
          rw [hclose]
          simp only [max_le_iff]
          omega
      · simp [hd, endLevel, maxLevel, hn₁, hn₂]

/-- C2: a visited field whose bare type name is a catalog key is
emitted with a nested selection block exactly while the current depth is
strictly below the maximum; once depth reaches the maximum the field
name is emitted alone, and consequently the emitted lines never nest
more than `maxD - depth` selection blocks deep (so a field visited at
depth 0 — the synthesized output of an operation — stays within the
configured maximum depth).  Field names are assumed not to be brace
lines themselves, as GraphQL names never are. -/
theorem selectFields_depth_guard
    (types : Catalog) (maxD : Nat) (field : FieldDef) (depth : Nat) (fs : List FieldDef)
    (hv : ∀ p ∈ types, ∀ f ∈ p.2, f.name ≠ "\x7b" ∧ f.name ≠ "\x7d")
    (hname : field.name ≠ "\x7b" ∧ field.name ≠ "\x7d")
    (hcat : mapGet? types (getTypeName field.type false) = some fs) :
    (depth < maxD →
      selectFields types maxD field depth =
        field.name :: "\x7b" ::
          ((fs.map fun item => selectFields types maxD item (depth + 1)).flatten ++
            ["\x7d"])) ∧
    (maxD ≤ depth → selectFields types maxD field depth = [field.name]) ∧
    maxLevel (selectFields types maxD field depth) 0 ≤ maxD - depth := by
  refine ⟨?_, ?_, ?_⟩
  · intro hd
    rw [selectFields, hcat]
    simp [hd]
  · intro hd
    rw [selectFields, hcat]
    simp [Nat.not_lt.mpr hd]
  · have h := selectFields_levels types maxD hv (maxD - depth) depth field
      (Nat.le_refl _) hname.1 hname.2 0
    simpa using h.2

/-- Witness for C2 on the self-referential catalog type `T` with the
default maximum depth 2: at depth 0 the block is opened, at depth 2 the
field name stands alone, and the depth-0 output nests at most 2 deep. -/
theorem selectFields_depth_guard_witness :
    selectFields tCatalog 2 tField 0 =
      tField.name :: "\x7b" ::
        (([tField].map fun item => selectFields tCatalog 2 item (0 + 1)).flatten ++
          ["\x7d"]) ∧
    selectFields tCatalog 2 tField 2 = [tField.name] ∧
    maxLevel (selectFields tCatalog 2 tField 0) 0 ≤ 2 - 0 :=
  ⟨(selectFields_depth_guard tCatalog 2 tField 0 [tField] (by decide) (by decide)
      rfl).1 (by decide),
   (selectFields_depth_guard tCatalog 2 tField 2 [tField] (by decide) (by decide)
      rfl).2.1 (by decide),
   (selectFields_depth_guard tCatalog 2 tField 0 [tField] (by decide) (by decide)
      rfl).2.2⟩

end Gqlgen
